import Mathlib

/-!
Package `oddish`: a verification development of `main.go`.

A shallow embedding of the data-access helpers of package `oddish`
(`Iter`, `Aggregate`, `DeleteID`, `FindID`, `FindMany`, `FindPage`, `Update`,
`ObjID`) together with the properties established about them.

Conventions of the embedding.

* Go `error` values are `Option Err`; `none` is the `nil` error.
* A run of a Go function either returns or panics: `Outcome`.
* Go `int` is taken to be 64 bits wide, as `int64`; machine integers are
  mathematical integers wrapped by `toInt64`.
* A Go string is its sequence of bytes.
* The MongoDB driver (collection, cursor, BSON decoder, `ObjectIDFromHex`) is
  the environment: a cursor is the finite list of the documents it still has
  to deliver, and the decoder is a parameter of the development.
* `sync.Mutex` locking and `log.Println` have no effect on the values
  computed by one sequential call and are left out.
-/

namespace Oddish

/-! ## Go runtime values -/

/-- Go `error` values that are not `nil`, identified by their message. -/
abbrev Err := String

/-- Run-time panics that the modelled code can raise. -/
inductive Fault where
  /-- The explicit `panic` raised when the result argument has the wrong shape. -/
  | resultArgument
  /-- Integer division by zero. -/
  | divideByZero
  /-- Method call through a nil `*mongo.Cursor`. -/
  | nilDereference
  /-- The `reflect` index of a slice element is out of range. -/
  | indexOutOfRange
  /-- The `reflect` bound of a reslice is out of range. -/
  | sliceBounds
  deriving DecidableEq, Repr

/-- Result of running a Go function: it returns a value or it panics. -/
inductive Outcome (ρ : Type) where
  | ret (r : ρ)
  | panic (f : Fault)
  deriving DecidableEq, Repr

/-- Sequencing of runs: a panic stops the rest of the function. -/
def Outcome.bind {ρ σ : Type} (o : Outcome ρ) (k : ρ → Outcome σ) : Outcome σ :=
  match o with
  | .ret r => k r
  | .panic f => .panic f

/-- Two's-complement wrap of a mathematical integer to `int64`. -/
def toInt64 (x : Int) : Int := (x + 2 ^ 63) % 2 ^ 64 - 2 ^ 63

/-- A Go string: its bytes. -/
abbrev GoString := List Nat

/-! ## Slices seen through `reflect` -/

/-- A Go slice value: the backing array from the first element of the slice
up to its capacity, and the length of the slice. -/
structure Slice (α : Type) where
  arr : List α
  len : Nat
  deriving DecidableEq, Repr

namespace Slice

variable {α : Type}

/-- The `nil` slice. -/
def nil : Slice α := ⟨[], 0⟩

/-- Method `Value.Len`. -/
def Len (s : Slice α) : Nat := s.len

/-- Method `Value.Cap`. -/
def Cap (s : Slice α) : Nat := s.arr.length

/-- The elements of the slice, `s[0], ..., s[len-1]`. -/
def toList (s : Slice α) : List α := s.arr.take s.len

/-- Method `Value.Slice(0, j)`: panics when `j` exceeds the capacity. -/
def Slice0 (s : Slice α) (j : Nat) : Outcome (Slice α) :=
  if j ≤ s.Cap then .ret ⟨s.arr, j⟩ else .panic .sliceBounds

/-- Method `Value.Index(i)`, read: panics when `i` is not below the length. -/
def Index (s : Slice α) (i : Nat) : Outcome α :=
  if i < s.len then
    match s.arr[i]? with
    | some v => .ret v
    | none => .panic .indexOutOfRange
  else .panic .indexOutOfRange

/-- Store through the pointer `Value.Index(i).Addr()`. -/
def setIndex (s : Slice α) (i : Nat) (v : α) : Slice α := ⟨s.arr.set i v, s.len⟩

/-- Function `reflect.Append(s, v)`. With room left in the backing array the
element is stored in place; otherwise a larger array is allocated, the
elements are copied, and the rest of the new array holds zero values. The
runtime chooses the new capacity: `extra c` is the number of spare slots
allocated when a slice of length `c` grows. -/
def Append (zero : α) (extra : Nat → Nat) (s : Slice α) (v : α) : Slice α :=
  if s.len < s.Cap then ⟨s.arr.set s.len v, s.len + 1⟩
  else ⟨s.arr.take s.len ++ v :: List.replicate (extra s.len) zero, s.len + 1⟩

end Slice

/-- The dynamic value passed for a result argument of type `any`, as far as
`reflect` distinguishes it. -/
inductive Arg (α : Type) where
  /-- A non-nil pointer to a slice variable holding `s`. -/
  | slicePtr (s : Slice α)
  /-- A pointer whose element is not a slice (a nil pointer included). -/
  | otherPtr
  /-- A value that is not a pointer (a slice value, a struct, `nil`, ...). -/
  | notPtr
  deriving DecidableEq, Repr

/-- Kinds of `reflect` that the shape test looks at. -/
inductive Kind where
  | Ptr | Slice | Other
  deriving DecidableEq, Repr

/-- Method `Value.Kind` of the result argument. -/
def Arg.Kind {α : Type} : Arg α → Kind
  | .slicePtr _ => .Ptr
  | .otherPtr => .Ptr
  | .notPtr => .Other

/-- Kind of `Value.Elem()` of a result argument that is a pointer. -/
def Arg.ElemKind {α : Type} : Arg α → Oddish.Kind
  | .slicePtr _ => .Slice
  | .otherPtr => .Other
  | .notPtr => .Other

/-! ## The cursor and its decoder -/

/-- Method `Cursor.Decode` into a value of type `α`: the decoder receives the
current document and the present contents of the target, and leaves the
target with new contents and an error (`none` on success). A failed decode
may have written part of the target. -/
abbrev Decoder (R α : Type) := R → α → α × Option Err

/-- A `mongo.Cursor`: the documents not yet delivered, and the error its
`Close` will report. -/
structure Cursor (R : Type) where
  docs : List R
  closeErr : Option Err
  deriving DecidableEq, Repr

/-- Method `Cursor.Close`. -/
def Cursor.Close {R : Type} (c : Cursor R) : Option Err := c.closeErr

/-- Type `Iter`: a cursor pointer (`none` is the nil pointer) and an error. -/
structure Iter (R : Type) where
  cur : Option (Cursor R)
  err : Option Err
  deriving DecidableEq, Repr

/-- Function `NewIter`. -/
def NewIter {R : Type} (cur : Option (Cursor R)) (err : Option Err) : Iter R :=
  { cur := cur, err := err }

/-- Number of documents the cursor of the iterator still has to deliver. -/
def Iter.remaining {R : Type} (iter : Iter R) : Nat :=
  match iter.cur with
  | some c => c.docs.length
  | none => 0

/-- Method `Iter.Next`: advance the cursor and decode the document into the
target `T`. Returns the boolean, the iterator after the call and the contents
of the target after the call. -/
def Iter.Next {R α : Type} (dec : Decoder R α) (iter : Iter R) (T : α) :
    Outcome (Bool × Iter R × α) :=
  match iter.cur with
  | none => .panic .nilDereference
  | some c =>
    match c.docs with
    | d :: rest =>
      let iter1 : Iter R := { iter with cur := some { c with docs := rest } }
      match dec d T with
      | (v, some _) => .ret (false, iter1, v)
      | (v, none) => .ret (true, iter1, v)
    | [] => .ret (false, iter, T)

/-- The materialization loop, the `for` statement shared word for word by
`Aggregate`, `FindMany` and `FindPage`, started with slice `slicev` and
index `i`. Returns the iterator, `slicev` and `i` at the `break`. -/
def loop {R α : Type} (dec : Decoder R α) (zero : α) (extra : Nat → Nat)
    (iter : Iter R) (slicev : Slice α) (i : Nat) : Outcome (Iter R × Slice α × Nat) :=
  if slicev.Len = i then
    -- elemp := reflect.New(elemt)
    match h : Iter.Next dec iter zero with
    | .panic f => .panic f
    | .ret (false, iter1, _) => .ret (iter1, slicev, i)
    | .ret (true, iter1, v) =>
      let slicev1 := Slice.Append zero extra slicev v
      match slicev1.Slice0 slicev1.Cap with
      | .panic f => .panic f
      | .ret slicev2 => loop dec zero extra iter1 slicev2 (i + 1)
  else
    match slicev.Index i with
    | .panic f => .panic f
    | .ret old =>
      match h : Iter.Next dec iter old with
      | .panic f => .panic f
      | .ret (false, iter1, v) => .ret (iter1, slicev.setIndex i v, i)
      | .ret (true, iter1, v) => loop dec zero extra iter1 (slicev.setIndex i v) (i + 1)
termination_by iter.remaining
decreasing_by
  all_goals simp_wf
  all_goals
    unfold Iter.Next at h
    cases hc : iter.cur with
    | none => simp [hc] at h
    | some c =>
      cases hd : c.docs with
      | nil => simp [hc, hd] at h
      | cons d rest =>
        simp only [hc, hd] at h
        split at h
        · simp at h
        · simp only [Outcome.ret.injEq, Prod.mk.injEq, true_and] at h
          rw [← h.1]
          simp [Iter.remaining, hc, hd]

/-- The statements of `Aggregate`, `FindMany` and `FindPage` from the shape
test of the result argument to the store of the final slice: returns the
iterator after the loop and the result argument after the store. -/
def materialize {R α : Type} (dec : Decoder R α) (zero : α) (extra : Nat → Nat)
    (iter : Iter R) (T : Arg α) : Outcome (Iter R × Arg α) :=
  if T.Kind ≠ Kind.Ptr ∨ T.ElemKind ≠ Kind.Slice then .panic .resultArgument
  else
    match T with
    | .slicePtr s =>
      (s.Slice0 s.Cap).bind fun slicev =>
      (loop dec zero extra iter slicev 0).bind fun (iter1, slicev1, i) =>
      (slicev1.Slice0 i).bind fun final =>
      .ret (iter1, .slicePtr final)
    | _ => .panic .resultArgument

/-! ## Identifiers -/

/-- Type `primitive.ObjectID`, an array of twelve bytes. -/
abbrev ObjectID := List Nat

/-- Variable `primitive.NilObjectID`, the zero value of `ObjectID`. -/
def NilObjectID : ObjectID := List.replicate 12 0

/-- Value of one hexadecimal digit of `encoding/hex` (table `reverseHexTable`),
`none` for a byte that is not a digit. -/
def fromHexChar (c : Nat) : Option Nat :=
  if 48 ≤ c ∧ c ≤ 57 then some (c - 48)
  else if 97 ≤ c ∧ c ≤ 102 then some (c - 97 + 10)
  else if 65 ≤ c ∧ c ≤ 70 then some (c - 65 + 10)
  else none

/-- Function `hex.Decode` of `encoding/hex`: the bytes written by two digits
each, or the error of the first byte that is not a digit (of an odd length). -/
def hexDecode : List Nat → Except Err (List Nat)
  | p :: q :: rest =>
    match fromHexChar p, fromHexChar q with
    | some a, some b =>
      match hexDecode rest with
      | .ok bs => .ok ((a * 16 + b) :: bs)
      | .error e => .error e
    | _, _ => .error "encoding/hex: invalid byte"
  | [_] => .error "encoding/hex: odd length hex string"
  | [] => .ok []

/-- Function `primitive.ObjectIDFromHex` of the driver: the length test, then
`hex.Decode` into the twelve bytes. -/
def ObjectIDFromHex (s : GoString) : Except Err ObjectID :=
  if s.length ≠ 24 then .error "the provided hex string is not a valid ObjectID"
  else
    match hexDecode s with
    | .ok oid => .ok oid
    | .error e => .error e

/-- Function `ObjID`. -/
def ObjID (hex : GoString) : ObjectID :=
  match ObjectIDFromHex hex with
  | .error _ => NilObjectID
  | .ok objID => objID

/-- A byte that is a hexadecimal digit: `0-9`, `a-f` or `A-F`. -/
def isHexDigit (c : Nat) : Prop :=
  (48 ≤ c ∧ c ≤ 57) ∨ (97 ≤ c ∧ c ≤ 102) ∨ (65 ≤ c ∧ c ≤ 70)

instance (c : Nat) : Decidable (isHexDigit c) := by
  unfold isHexDigit; infer_instance

/-- A valid 24-character hex string. -/
def validHex24 (s : GoString) : Prop := s.length = 24 ∧ ∀ c ∈ s, isHexDigit c

instance (s : GoString) : Decidable (validHex24 s) := by
  unfold validHex24; infer_instance

/-- The dynamic value passed for an identifier argument of type `any`. -/
inductive IdArg where
  | str (s : GoString)
  | oid (o : ObjectID)
  /-- The nil interface value. -/
  | nil
  /-- A value of any other type, with the name of its type. -/
  | other (typeName : String)
  deriving DecidableEq, Repr

/-- Name that the verb `%T` prints for the dynamic type. -/
def IdArg.typeName : IdArg → String
  | .str _ => "string"
  | .oid _ => "primitive.ObjectID"
  | .nil => "<nil>"
  | .other n => n

/-! ## The collection -/

/-- Values stored in a BSON document, as far as the development needs. -/
inductive BsonValue where
  | objectID (o : ObjectID)
  | string (s : GoString)
  | int (n : Int)
  deriving DecidableEq, Repr

/-- Type `bson.D`: the ordered elements `primitive.E` of key and value. -/
abbrev BsonD := List (String × BsonValue)

/-- Type `options.FindOptions`, the three options the package sets. -/
structure FindOptions where
  sort : Option BsonD := none
  skip : Option Int := none
  limit : Option Int := none
  deriving DecidableEq, Repr

/-- Calls made on the `mongo.Collection`, with their arguments. -/
inductive Call where
  | Aggregate (pipe : List BsonD)
  | CountDocuments (filter : BsonD)
  | DeleteOne (filter : BsonD)
  | Find (filter : BsonD) (opts : FindOptions)
  | FindOne (filter : BsonD)
  | UpdateOne (filter : BsonD) (upd : BsonD)
  deriving DecidableEq, Repr

/-- A `mongo.Collection`: what the database answers to each call. A call that
yields a cursor answers either the cursor or an error. -/
structure Collection (R : Type) where
  Aggregate : List BsonD → Except Err (Cursor R)
  CountDocuments : BsonD → Except Err Int
  DeleteOne : BsonD → Option Err
  Find : BsonD → FindOptions → Except Err (Cursor R)
  FindOne : BsonD → Except Err R
  UpdateOne : BsonD → BsonD → Option Err

/-- Run of an operation without a result argument: the value returned and
the calls made on the collection, in order. -/
structure Run (ρ : Type) where
  ret : ρ
  calls : List Call

/-- Run of an operation with a result argument: how the operation ends, the
result argument when it ends, and the calls made on the collection. -/
structure Exec (α ρ : Type) where
  out : Outcome ρ
  dest : Arg α
  calls : List Call

/-- The filter `bson.D\x7bprimitive.E\x7bKey: "_id", Value: objID\x7d\x7d`. -/
def idFilter (objID : ObjectID) : BsonD := [("_id", .objectID objID)]

/-! ## The operations -/

section Operations

variable {R α : Type}

/-- The statements `opts := options.Find()` and `opts.SetSort(sorts)`, the
latter run when `sorts` is not empty, of `FindMany` and `FindPage`. -/
def findOptions (sorts : BsonD) : FindOptions :=
  let opts : FindOptions := {}
  if sorts.length > 0 then { opts with sort := some sorts } else opts

/-- Function `Aggregate`. -/
def Aggregate (dec : Decoder R α) (zero : α) (extra : Nat → Nat)
    (col : Collection R) (pipe : List BsonD) (T : Arg α) : Exec α (Option Err) :=
  let calls := [Call.Aggregate pipe]
  match col.Aggregate pipe with
  | .error err =>
    let _iter : Iter R := NewIter none (some err)
    ⟨.ret (some err), T, calls⟩
  | .ok cur =>
    let iter := NewIter (some cur) none
    match materialize dec zero extra iter T with
    | .panic f => ⟨.panic f, T, calls⟩
    | .ret (_, dest) => ⟨.ret cur.Close, dest, calls⟩

/-- Function `Count`. -/
def Count (col : Collection R) (filter : BsonD) : Except Err Int :=
  col.CountDocuments filter

/-- Function `DeleteID`. -/
def DeleteID (col : Collection R) (id : IdArg) : Run (Option Err) :=
  match id with
  | .str value => ⟨col.DeleteOne (idFilter (ObjID value)), [.DeleteOne (idFilter (ObjID value))]⟩
  | .oid value => ⟨col.DeleteOne (idFilter value), [.DeleteOne (idFilter value)]⟩
  | _ => ⟨some ("unsupported id type: " ++ id.typeName), []⟩

/-- Function `FindID`; `none` is the nil `*mongo.SingleResult`. A value that
matches no case of the type switch leaves `objID` at its zero value. -/
def FindID (col : Collection R) (id : IdArg) : Run (Option (Except Err R)) :=
  match id with
  | .str value => ⟨some (col.FindOne (idFilter (ObjID value))), [.FindOne (idFilter (ObjID value))]⟩
  | .oid value => ⟨some (col.FindOne (idFilter value)), [.FindOne (idFilter value)]⟩
  | .nil => ⟨none, []⟩
  | .other _ => ⟨some (col.FindOne (idFilter NilObjectID)), [.FindOne (idFilter NilObjectID)]⟩

/-- Function `FindMany`. -/
def FindMany (dec : Decoder R α) (zero : α) (extra : Nat → Nat)
    (col : Collection R) (RESULTS : Arg α) (filter sorts : BsonD) : Exec α (Option Err) :=
  let opts := findOptions sorts
  let calls := [Call.Find filter opts]
  match col.Find filter opts with
  | .error err => ⟨.ret (some err), RESULTS, calls⟩
  | .ok cur =>
    let iter := NewIter (some cur) none
    match materialize dec zero extra iter RESULTS with
    | .panic f => ⟨.panic f, RESULTS, calls⟩
    | .ret (_, dest) => ⟨.ret cur.Close, dest, calls⟩

/-- Function `FindOne`. -/
def FindOne (col : Collection R) (filter : BsonD) : Run (Except Err R) :=
  ⟨col.FindOne filter, [.FindOne filter]⟩

/-- The statements of `FindPage` that compute `totalPages` from the count
and `_limit`, in `int64` arithmetic: the quotient truncates toward zero and
a zero divisor panics. -/
def totalPages (cnt _limit : Int) : Outcome Int :=
  if _limit = 0 then .panic .divideByZero
  else
    let totalPages := toInt64 (cnt.tdiv _limit)
    let totalPages := if cnt.tmod _limit > 0 then toInt64 (totalPages + 1) else totalPages
    let totalPages := if totalPages = 0 then 1 else totalPages
    .ret totalPages

/-- Function `FindPage`. -/
def FindPage (dec : Decoder R α) (zero : α) (extra : Nat → Nat)
    (col : Collection R) (T : Arg α) (filter : BsonD) (page limit : Int) (sorts : BsonD) :
    Exec α (Int × Option Err) :=
  let _page := toInt64 page
  let _limit := toInt64 limit
  let opts := findOptions sorts
  let _page := if _page ≤ 0 then 1 else _page
  let calls := [Call.CountDocuments filter]
  match Count col filter with
  | .error err => ⟨.ret (0, some err), T, calls⟩
  | .ok cnt =>
    match totalPages cnt _limit with
    | .panic f => ⟨.panic f, T, calls⟩
    | .ret totalPages =>
      let opts := { opts with skip := some (toInt64 ((_page - 1) * _limit)), limit := some _limit }
      let calls := calls ++ [Call.Find filter opts]
      match col.Find filter opts with
      | .error err => ⟨.ret (0, some err), T, calls⟩
      | .ok cur =>
        let iter := NewIter (some cur) none
        match materialize dec zero extra iter T with
        | .panic f => ⟨.panic f, T, calls⟩
        | .ret (_, dest) =>
          -- the error of cur.Close is dropped
          let _ := cur.Close
          ⟨.ret (totalPages, none), dest, calls⟩

/-- The options with which `FindPage` issues its find query. -/
def pageOptions (sorts : BsonD) (page limit : Int) : FindOptions :=
  { findOptions sorts with
    skip := some (toInt64 (((if toInt64 page ≤ 0 then 1 else toInt64 page) - 1) * toInt64 limit)),
    limit := some (toInt64 limit) }

/-- Function `Update`. The verb `%v` prints a string as it is. -/
def Update (col : Collection R) (id : IdArg) (upd : BsonD) : Run (Option Err) :=
  match id with
  | .str value =>
    ⟨col.UpdateOne (idFilter (ObjID value)) upd, [.UpdateOne (idFilter (ObjID value)) upd]⟩
  | .oid value => ⟨col.UpdateOne (idFilter value) upd, [.UpdateOne (idFilter value) upd]⟩
  | _ => ⟨none, []⟩

end Operations

/-! ## Sample inputs -/

/-- A sample decoder: a document is a natural number, the document `0` is
malformed, and a decode adds the document to the contents of the target. -/
def sampleDec : Decoder Nat Nat := fun d old =>
  if d = 0 then (old + 1000, some "malformed") else (old + d, none)

/-- A sample collection: every cursor query answers the stream `docs` with
close error `ce`, and the count query answers `cnt`. -/
def sampleCol (docs : List Nat) (ce : Option Err) (cnt : Int) : Collection Nat :=
  { Aggregate := fun _ => .ok ⟨docs, ce⟩
    CountDocuments := fun _ => .ok cnt
    DeleteOne := fun _ => none
    Find := fun _ _ => .ok ⟨docs, ce⟩
    FindOne := fun _ => .error "mongo: no documents in result"
    UpdateOne := fun _ _ => none }

/-- The bytes of the string `5f1b2c3d4e5f6a7b8c9d0e1F`. -/
def sampleHex : GoString :=
  [53, 102, 49, 98, 50, 99, 51, 100, 52, 101, 53, 102, 54, 97, 55, 98, 56, 99, 57, 100, 48, 101,
    49, 70]

/-! ## Reference functions for the loop -/

/-- The values the loop writes: document number `j` of `ds` is decoded into
the slot `i + j` of the backing array `arr`, or into a zero value when the
array has no such slot. -/
def decodeAll {R α : Type} (dec : Decoder R α) (zero : α) (arr : List α) : Nat → List R → List α
  | _, [] => []
  | i, d :: ds => (dec d (arr.getD i zero)).1 :: decodeAll dec zero arr (i + 1) ds

/-- Capacity of the slice after `k` more elements are written from index `i`
on, starting with capacity `c`. -/
def capAfter (extra : Nat → Nat) : Nat → Nat → Nat → Nat
  | c, _, 0 => c
  | c, i, k + 1 => if c = i then capAfter extra (c + 1 + extra c) (i + 1) k else capAfter extra c (i + 1) k

/-! ## The loop -/

section LoopLemmas

variable {R α : Type}

theorem decodeAll_length (dec : Decoder R α) (zero : α) (arr : List α) :
    ∀ (ds : List R) (i : Nat), (decodeAll dec zero arr i ds).length = ds.length := by
  intro ds
  induction ds with
  | nil => intro i; rfl
  | cons d ds ih => intro i; simp [decodeAll, ih]

theorem decodeAll_congr (dec : Decoder R α) (zero : α) (arr arr1 : List α) :
    ∀ (ds : List R) (i : Nat), (∀ j, i ≤ j → arr1.getD j zero = arr.getD j zero) →
      decodeAll dec zero arr1 i ds = decodeAll dec zero arr i ds := by
  intro ds
  induction ds with
  | nil => intro i _; rfl
  | cons d ds ih =>
    intro i h
    simp only [decodeAll]
    rw [h i (le_refl i), ih (i + 1) (fun j hj => h j (by omega))]

theorem decodeAll_getElem? (dec : Decoder R α) (zero : α) (arr : List α) :
    ∀ (ds : List R) (i j : Nat) (hj : j < ds.length),
      (decodeAll dec zero arr i ds)[j]? = some (dec (ds.get ⟨j, hj⟩) (arr.getD (i + j) zero)).1 := by
  intro ds
  induction ds with
  | nil => intro i j hj; simp at hj
  | cons d ds ih =>
    intro i j hj
    cases j with
    | zero => simp [decodeAll]
    | succ j =>
      simp only [decodeAll, List.getElem?_cons_succ, List.get_cons_succ]
      rw [ih (i + 1) j (by simpa using hj)]
      have : i + 1 + j = i + (j + 1) := by omega
      simp [this]

theorem loop_grow_stop (dec : Decoder R α) (zero : α) (extra : Nat → Nat)
    (iter iter1 : Iter R) (slicev : Slice α) (i : Nat) (v : α) (hlen : slicev.Len = i)
    (hnext : Iter.Next dec iter zero = .ret (false, iter1, v)) :
    loop dec zero extra iter slicev i = .ret (iter1, slicev, i) := by
  rw [loop, if_pos hlen]
  split
  · next h => rw [hnext] at h; cases h
  · next h => rw [hnext] at h; cases h; rfl
  · next h => rw [hnext] at h; cases h

theorem loop_grow_step (dec : Decoder R α) (zero : α) (extra : Nat → Nat)
    (iter iter1 : Iter R) (slicev : Slice α) (i : Nat) (v : α) (hlen : slicev.Len = i)
    (hnext : Iter.Next dec iter zero = .ret (true, iter1, v)) :
    loop dec zero extra iter slicev i =
      match (Slice.Append zero extra slicev v).Slice0 (Slice.Append zero extra slicev v).Cap with
      | .panic f => .panic f
      | .ret slicev2 => loop dec zero extra iter1 slicev2 (i + 1) := by
  rw [loop, if_pos hlen]
  split
  · next h => rw [hnext] at h; cases h
  · next h => rw [hnext] at h; cases h
  · next h => rw [hnext] at h; cases h; rfl

theorem loop_reuse_stop (dec : Decoder R α) (zero : α) (extra : Nat → Nat)
    (iter iter1 : Iter R) (slicev : Slice α) (i : Nat) (old v : α) (hlen : slicev.Len ≠ i)
    (hidx : slicev.Index i = .ret old)
    (hnext : Iter.Next dec iter old = .ret (false, iter1, v)) :
    loop dec zero extra iter slicev i = .ret (iter1, slicev.setIndex i v, i) := by
  rw [loop, if_neg hlen]
  simp only [hidx]
  split
  · next h => rw [hnext] at h; cases h
  · next h => rw [hnext] at h; cases h; rfl
  · next h => rw [hnext] at h; cases h

theorem loop_reuse_step (dec : Decoder R α) (zero : α) (extra : Nat → Nat)
    (iter iter1 : Iter R) (slicev : Slice α) (i : Nat) (old v : α) (hlen : slicev.Len ≠ i)
    (hidx : slicev.Index i = .ret old)
    (hnext : Iter.Next dec iter old = .ret (true, iter1, v)) :
    loop dec zero extra iter slicev i = loop dec zero extra iter1 (slicev.setIndex i v) (i + 1) := by
  rw [loop, if_neg hlen]
  simp only [hidx]
  split
  · next h => rw [hnext] at h; cases h
  · next h => rw [hnext] at h; cases h
  · next h => rw [hnext] at h; cases h; rfl

theorem Next_nil (dec : Decoder R α) (ce e : Option Err) (T : α) :
    Iter.Next dec ⟨some ⟨[], ce⟩, e⟩ T = .ret (false, ⟨some ⟨[], ce⟩, e⟩, T) := rfl

theorem Next_fail (dec : Decoder R α) (ce e : Option Err) (T : α) (b : R) (rest : List R)
    (h : (dec b T).2 ≠ none) :
    Iter.Next dec ⟨some ⟨b :: rest, ce⟩, e⟩ T = .ret (false, ⟨some ⟨rest, ce⟩, e⟩, (dec b T).1) := by
  unfold Iter.Next
  simp only
  split
  · next v er heq => simp [heq]
  · next v heq => simp [heq] at h

theorem Next_ok (dec : Decoder R α) (ce e : Option Err) (T : α) (d : R) (rest : List R)
    (h : (dec d T).2 = none) :
    Iter.Next dec ⟨some ⟨d :: rest, ce⟩, e⟩ T = .ret (true, ⟨some ⟨rest, ce⟩, e⟩, (dec d T).1) := by
  unfold Iter.Next
  simp only
  split
  · next v er heq => simp [heq] at h
  · next v heq => simp [heq]

theorem Index_full (arr : List α) (i : Nat) (zero : α) (h : i < arr.length) :
    Slice.Index ⟨arr, arr.length⟩ i = .ret (arr.getD i zero) := by
  simp [Slice.Index, h, List.getD_eq_getElem?_getD]

theorem take_set_self (arr : List α) (i : Nat) (v : α) : (arr.set i v).take i = arr.take i := by
  rw [List.set_take]
  exact List.set_eq_of_length_le (by simp)

theorem getD_set_ne (arr : List α) (i p : Nat) (v zero : α) (h : i ≠ p) :
    (arr.set i v).getD p zero = arr.getD p zero := by
  simp [List.getElem?_set_ne h]

theorem getD_grow (arr : List α) (n p : Nat) (v zero : α) (h : arr.length < p) :
    (arr ++ v :: List.replicate n zero).getD p zero = arr.getD p zero := by
  rw [List.getD_append_right _ _ _ _ (by omega), List.getD_eq_default arr zero (by omega)]
  obtain ⟨k, hk⟩ : ∃ k, p - arr.length = k + 1 := ⟨p - arr.length - 1, by omega⟩
  rw [hk]
  simp

/-- The loop on a full slice: the first documents decode, and the stream
then ends or delivers a document that fails to decode. -/
theorem loop_spec (dec : Decoder R α) (zero : α) (extra : Nat → Nat)
    (ce e : Option Err) (tail : List R) :
    ∀ (good : List R) (arr : List α) (i : Nat), i ≤ arr.length →
      (∀ j (hj : j < good.length), (dec (good.get ⟨j, hj⟩) (arr.getD (i + j) zero)).2 = none) →
      (∀ b rest, tail = b :: rest → (dec b (arr.getD (i + good.length) zero)).2 ≠ none) →
      ∃ it a, loop dec zero extra ⟨some ⟨good ++ tail, ce⟩, e⟩ ⟨arr, arr.length⟩ i
          = .ret (it, ⟨a, a.length⟩, i + good.length)
        ∧ i + good.length ≤ a.length
        ∧ a.length = capAfter extra arr.length i good.length
        ∧ a.take (i + good.length) = arr.take i ++ decodeAll dec zero arr i good := by
  intro good
  induction good with
  | nil =>
    intro arr i hi _ hstop
    simp only [List.nil_append, List.length_nil, Nat.add_zero, capAfter, decodeAll,
      List.append_nil]
    simp only [List.length_nil, Nat.add_zero] at hstop
    by_cases hlen : arr.length = i
    · have hz : arr.getD i zero = zero := List.getD_eq_default arr zero (by omega)
      cases tail with
      | nil =>
        exact ⟨_, arr, loop_grow_stop dec zero extra _ _ _ i _ hlen (Next_nil dec ce e zero),
          hi, rfl, rfl⟩
      | cons b rest =>
        have hb := hstop b rest rfl
        rw [hz] at hb
        exact ⟨_, arr, loop_grow_stop dec zero extra _ _ _ i _ hlen
          (Next_fail dec ce e zero b rest hb), hi, rfl, rfl⟩
    · have hlt : i < arr.length := by omega
      have hidx := Index_full arr i zero hlt
      cases tail with
      | nil =>
        refine ⟨⟨some ⟨[], ce⟩, e⟩, arr.set i (arr.getD i zero), ?_, ?_, ?_, ?_⟩
        · have := loop_reuse_stop dec zero extra _ _ ⟨arr, arr.length⟩ i _ _ hlen hidx
            (Next_nil dec ce e _)
          simpa [Slice.setIndex] using this
        · simpa using hi
        · simp
        · exact take_set_self arr i _
      | cons b rest =>
        have hb := hstop b rest rfl
        refine ⟨⟨some ⟨rest, ce⟩, e⟩, arr.set i (dec b (arr.getD i zero)).1, ?_, ?_, ?_, ?_⟩
        · have := loop_reuse_stop dec zero extra _ _ ⟨arr, arr.length⟩ i _ _ hlen hidx
            (Next_fail dec ce e _ b rest hb)
          simpa [Slice.setIndex] using this
        · simpa using hi
        · simp
        · exact take_set_self arr i _
  | cons d ds ih =>
    intro arr i hi hgood hstop
    have h0 : (dec d (arr.getD i zero)).2 = none := by
      have := hgood 0 (by simp)
      simpa using this
    have hlends : i + (d :: ds).length = i + 1 + ds.length := by simp; omega
    by_cases hlen : arr.length = i
    · have hz : arr.getD i zero = zero := List.getD_eq_default arr zero (by omega)
      rw [hz] at h0
      have hstep := loop_grow_step dec zero extra _ _ ⟨arr, arr.length⟩ i _ hlen
        (Next_ok dec ce e zero d (ds ++ tail) h0)
      have happ : Slice.Append zero extra ⟨arr, arr.length⟩ (dec d zero).1
          = ⟨arr ++ (dec d zero).1 :: List.replicate (extra arr.length) zero, arr.length + 1⟩ := by
        simp [Slice.Append, Slice.Cap]
      rw [happ] at hstep
      simp only [Slice.Slice0, Slice.Cap, le_refl, if_true] at hstep
      obtain ⟨it, a, hloop, hle, hcap, htake⟩ :=
        ih (arr ++ (dec d zero).1 :: List.replicate (extra arr.length) zero) (i + 1)
          (by simp; omega)
          (fun j hj => by
            have := hgood (j + 1) (by simpa using hj)
            rw [getD_grow arr _ _ _ zero (by omega)]
            have e1 : i + 1 + j = i + (j + 1) := by omega
            rw [e1]
            simpa using this)
          (fun b rest hb => by
            have := hstop b rest hb
            rw [getD_grow arr _ _ _ zero (by omega)]
            rw [hlends] at this
            exact this)
      refine ⟨it, a, ?_, ?_, ?_, ?_⟩
      · rw [List.cons_append, hstep, hlends]
        exact hloop
      · omega
      · rw [hcap]
        simp only [List.length_cons, capAfter, if_pos hlen, List.length_append,
          List.length_replicate]
        congr 1
        omega
      · rw [hlends, htake, decodeAll_congr dec zero arr _ ds (i + 1)
          (fun j hj => getD_grow arr _ _ _ zero (by omega))]
        subst hlen
        simp only [decodeAll, hz, List.take_append, List.take_length, List.take_succ_cons,
          List.take_zero, List.append_assoc, List.cons_append, List.nil_append]
    · have hlt : i < arr.length := by omega
      have hidx := Index_full arr i zero hlt
      have hstep := loop_reuse_step dec zero extra _ _ ⟨arr, arr.length⟩ i _ _ hlen hidx
        (Next_ok dec ce e _ d (ds ++ tail) h0)
      have hset : Slice.setIndex ⟨arr, arr.length⟩ i (dec d (arr.getD i zero)).1
          = ⟨arr.set i (dec d (arr.getD i zero)).1,
              (arr.set i (dec d (arr.getD i zero)).1).length⟩ := by
        simp [Slice.setIndex]
      rw [hset] at hstep
      obtain ⟨it, a, hloop, hle, hcap, htake⟩ :=
        ih (arr.set i (dec d (arr.getD i zero)).1) (i + 1)
          (by simp; omega)
          (fun j hj => by
            have := hgood (j + 1) (by simpa using hj)
            rw [getD_set_ne arr i _ _ zero (by omega)]
            have e1 : i + 1 + j = i + (j + 1) := by omega
            rw [e1]
            simpa using this)
          (fun b rest hb => by
            have := hstop b rest hb
            rw [getD_set_ne arr i _ _ zero (by omega)]
            rw [hlends] at this
            exact this)
      refine ⟨it, a, ?_, ?_, ?_, ?_⟩
      · rw [List.cons_append, hstep, hlends]
        exact hloop
      · omega
      · rw [hcap]
        simp only [List.length_cons, capAfter, if_neg hlen, List.length_set]
      · rw [hlends, htake, decodeAll_congr dec zero arr _ ds (i + 1)
          (fun j hj => getD_set_ne arr i _ _ zero (by omega))]
        simp only [decodeAll]
        rw [List.take_succ, List.getElem?_set_self hlt, take_set_self]
        simp

/-- The shared statements on a pointer to a slice: the first documents
decode, and the stream then ends or delivers a document that fails. -/
theorem materialize_spec (dec : Decoder R α) (zero : α) (extra : Nat → Nat)
    (ce e : Option Err) (good tail : List R) (s : Slice α)
    (hgood : ∀ j (hj : j < good.length), (dec (good.get ⟨j, hj⟩) (s.arr.getD j zero)).2 = none)
    (hstop : ∀ b rest, tail = b :: rest → (dec b (s.arr.getD good.length zero)).2 ≠ none) :
    ∃ it a, materialize dec zero extra ⟨some ⟨good ++ tail, ce⟩, e⟩ (.slicePtr s)
        = .ret (it, .slicePtr ⟨a, good.length⟩)
      ∧ good.length ≤ a.length
      ∧ a.length = capAfter extra s.arr.length 0 good.length
      ∧ a.take good.length = decodeAll dec zero s.arr 0 good := by
  obtain ⟨it, a, hloop, hle, hcap, htake⟩ := loop_spec dec zero extra ce e tail good s.arr 0
    (Nat.zero_le _) (fun j hj => by simpa using hgood j hj) (fun b rest hb => by
      simpa using hstop b rest hb)
  simp only [Nat.zero_add] at hloop hle htake
  refine ⟨it, a, ?_, hle, hcap, by simpa using htake⟩
  simp [materialize, Arg.Kind, Arg.ElemKind, Slice.Slice0, Slice.Cap, Outcome.bind, hloop, hle]

theorem split_decoding (dec : Decoder R α) (zero : α) (arr : List α) :
    ∀ (docs : List R) (i : Nat), ∃ good tail, docs = good ++ tail ∧
      (∀ j (hj : j < good.length), (dec (good.get ⟨j, hj⟩) (arr.getD (i + j) zero)).2 = none) ∧
      (∀ b rest, tail = b :: rest → (dec b (arr.getD (i + good.length) zero)).2 ≠ none) := by
  intro docs
  induction docs with
  | nil => intro i; exact ⟨[], [], rfl, fun j hj => by simp at hj, fun b rest hb => by cases hb⟩
  | cons d ds ih =>
    intro i
    by_cases hd : (dec d (arr.getD i zero)).2 = none
    · obtain ⟨good, tail, hsplit, hgood, hstop⟩ := ih (i + 1)
      refine ⟨d :: good, tail, by rw [hsplit]; rfl, ?_, ?_⟩
      · intro j hj
        cases j with
        | zero => simpa using hd
        | succ j =>
          have := hgood j (by simpa using hj)
          have e1 : i + (j + 1) = i + 1 + j := by omega
          rw [e1]
          simpa using this
      · intro b rest hb
        have := hstop b rest hb
        have e1 : i + (d :: good).length = i + 1 + good.length := by simp; omega
        rw [e1]
        exact this
    · refine ⟨[], d :: ds, rfl, fun j hj => by simp at hj, ?_⟩
      intro b rest hb
      cases hb
      simpa using hd

/-- On a pointer to a slice the shared statements return, whatever the
stream: the loop is total and raises no panic. -/
theorem materialize_total (dec : Decoder R α) (zero : α) (extra : Nat → Nat)
    (cur : Cursor R) (e : Option Err) (s : Slice α) :
    ∃ it final, materialize dec zero extra ⟨some cur, e⟩ (.slicePtr s)
      = .ret (it, .slicePtr final) := by
  obtain ⟨good, tail, hsplit, hgood, hstop⟩ := split_decoding dec zero s.arr cur.docs 0
  obtain ⟨it, a, hm, -⟩ := materialize_spec dec zero extra cur.closeErr e good tail s
    (fun j hj => by simpa using hgood j hj) (fun b rest hb => by simpa using hstop b rest hb)
  rw [← hsplit] at hm
  exact ⟨it, _, hm⟩

theorem materialize_panic (dec : Decoder R α) (zero : α) (extra : Nat → Nat)
    (iter : Iter R) (T : Arg α) (h : ∀ s, T ≠ .slicePtr s) :
    materialize dec zero extra iter T = .panic .resultArgument := by
  cases T with
  | slicePtr s => exact absurd rfl (h s)
  | otherPtr => simp [materialize, Arg.Kind, Arg.ElemKind]
  | notPtr => simp [materialize, Arg.Kind, Arg.ElemKind]

theorem Aggregate_ok (dec : Decoder R α) (zero : α) (extra : Nat → Nat) (col : Collection R)
    (pipe : List BsonD) (T dest : Arg α) (cur : Cursor R) (it : Iter R)
    (hq : col.Aggregate pipe = .ok cur)
    (hm : materialize dec zero extra ⟨some cur, none⟩ T = .ret (it, dest)) :
    Aggregate dec zero extra col pipe T = ⟨.ret cur.closeErr, dest, [Call.Aggregate pipe]⟩ := by
  simp [Aggregate, hq, NewIter, hm, Cursor.Close]

theorem FindMany_ok (dec : Decoder R α) (zero : α) (extra : Nat → Nat) (col : Collection R)
    (filter sorts : BsonD) (T dest : Arg α) (cur : Cursor R) (it : Iter R)
    (hq : col.Find filter (findOptions sorts) = .ok cur)
    (hm : materialize dec zero extra ⟨some cur, none⟩ T = .ret (it, dest)) :
    FindMany dec zero extra col T filter sorts
      = ⟨.ret cur.closeErr, dest, [Call.Find filter (findOptions sorts)]⟩ := by
  simp [FindMany, hq, NewIter, hm, Cursor.Close]

theorem FindPage_ok (dec : Decoder R α) (zero : α) (extra : Nat → Nat) (col : Collection R)
    (filter sorts : BsonD) (page limit cnt tp : Int) (T dest : Arg α) (cur : Cursor R)
    (it : Iter R)
    (hc : col.CountDocuments filter = .ok cnt)
    (ht : totalPages cnt (toInt64 limit) = .ret tp)
    (hq : col.Find filter (pageOptions sorts page limit) = .ok cur)
    (hm : materialize dec zero extra ⟨some cur, none⟩ T = .ret (it, dest)) :
    FindPage dec zero extra col T filter page limit sorts
      = ⟨.ret (tp, none), dest,
          [Call.CountDocuments filter, Call.Find filter (pageOptions sorts page limit)]⟩ := by
  unfold pageOptions at hq
  simp [FindPage, Count, hc, ht, hq, NewIter, hm, pageOptions]

theorem totalPages_ret (cnt l : Int) (h : l ≠ 0) : ∃ tp, totalPages cnt l = .ret tp := by
  simp [totalPages, h]

theorem toInt64_of_range (x : Int) (hlo : -2 ^ 63 ≤ x) (hhi : x < 2 ^ 63) : toInt64 x = x := by
  unfold toInt64
  rw [Int.emod_eq_of_lt (by omega) (by omega)]
  omega

theorem materialize_no_division_fault (dec : Decoder R α) (zero : α) (extra : Nat → Nat)
    (cur : Cursor R) (e : Option Err) (T : Arg α) :
    materialize dec zero extra ⟨some cur, e⟩ T ≠ .panic .divideByZero := by
  cases T with
  | slicePtr s =>
    obtain ⟨it, final, h⟩ := materialize_total dec zero extra cur e s
    rw [h]
    exact fun h => by cases h
  | otherPtr => simp [materialize, Arg.Kind, Arg.ElemKind]
  | notPtr => simp [materialize, Arg.Kind, Arg.ElemKind]

theorem FindPage_calls (dec : Decoder R α) (zero : α) (extra : Nat → Nat) (col : Collection R)
    (filter sorts : BsonD) (page limit cnt : Int) (T : Arg α)
    (hc : col.CountDocuments filter = .ok cnt) (hl : toInt64 limit ≠ 0) :
    (FindPage dec zero extra col T filter page limit sorts).calls
      = [Call.CountDocuments filter, Call.Find filter (pageOptions sorts page limit)] ∧
    (FindPage dec zero extra col T filter page limit sorts).out ≠ .panic .divideByZero := by
  obtain ⟨tp, htp⟩ := totalPages_ret cnt (toInt64 limit) hl
  simp only [FindPage, Count, hc, htp, NewIter]
  have hopts : ({ findOptions sorts with
      skip := some (toInt64 (((if toInt64 page ≤ 0 then 1 else toInt64 page) - 1) * toInt64 limit)),
      limit := some (toInt64 limit) } : FindOptions) = pageOptions sorts page limit := rfl
  rw [hopts]
  cases hq : col.Find filter (pageOptions sorts page limit) with
  | error err => exact ⟨rfl, fun h => by cases h⟩
  | ok cur =>
    simp only []
    have hnd := materialize_no_division_fault dec zero extra cur none T
    cases hm : materialize dec zero extra ⟨some cur, none⟩ T with
    | panic f =>
      refine ⟨rfl, ?_⟩
      intro h
      rw [hm] at hnd
      simp only [Outcome.panic.injEq] at h
      rw [h] at hnd
      exact hnd rfl
    | ret r => exact ⟨rfl, fun h => by cases h⟩

theorem ceil_div_eq (c s : Int) (hs : 0 < s) :
    ⌈(c : ℚ) / (s : ℚ)⌉ = if c % s > 0 then c / s + 1 else c / s := by
  have hsq : (0 : ℚ) < (s : ℚ) := by exact_mod_cast hs
  have hdecomp : s * (c / s) + c % s = c := Int.ediv_add_emod c s
  have hr0 : 0 ≤ c % s := Int.emod_nonneg c (ne_of_gt hs)
  have hr1 : c % s < s := Int.emod_lt_of_pos c hs
  have key : (c : ℚ) = (s : ℚ) * ((c / s : Int) : ℚ) + ((c % s : Int) : ℚ) := by
    exact_mod_cast hdecomp.symm
  have hr0q : (0 : ℚ) ≤ ((c % s : Int) : ℚ) := by exact_mod_cast hr0
  have hr1q : ((c % s : Int) : ℚ) < (s : ℚ) := by exact_mod_cast hr1
  rw [Int.ceil_eq_iff]
  split_ifs with h
  · have hrq : (0 : ℚ) < ((c % s : Int) : ℚ) := by exact_mod_cast h
    rw [lt_div_iff₀ hsq, div_le_iff₀ hsq]
    push_cast
    constructor <;> nlinarith
  · have hr : c % s = 0 := by omega
    have hrq : ((c % s : Int) : ℚ) = 0 := by exact_mod_cast hr
    rw [lt_div_iff₀ hsq, div_le_iff₀ hsq]
    constructor <;> nlinarith

theorem totalPages_eq (c s : Int) (hc : 0 ≤ c) (hc1 : c < 2 ^ 63) (hs : 0 < s) :
    totalPages c s = .ret (max 1 ⌈(c : ℚ) / (s : ℚ)⌉) := by
  have hq0 : 0 ≤ c / s := Int.ediv_nonneg hc (le_of_lt hs)
  have hdecomp : s * (c / s) + c % s = c := Int.ediv_add_emod c s
  have hr0 : 0 ≤ c % s := Int.emod_nonneg c (ne_of_gt hs)
  have hqc : c / s ≤ c := by nlinarith
  have h1 : toInt64 (c / s) = c / s := toInt64_of_range _ (by omega) (by omega)
  rw [ceil_div_eq c s hs]
  unfold totalPages
  rw [if_neg (ne_of_gt hs), Int.tdiv_eq_ediv hc (le_of_lt hs), Int.tmod_eq_emod hc (le_of_lt hs)]
  simp only [h1]
  by_cases hr : c % s > 0
  · have hlt : c / s < c := by nlinarith
    have h2 : toInt64 (c / s + 1) = c / s + 1 := toInt64_of_range _ (by omega) (by omega)
    simp only [hr, if_true, h2]
    rw [if_neg (by omega), max_eq_right (by omega)]
  · simp only [hr, if_false]
    by_cases hz : c / s = 0
    · simp [hz]
    · rw [if_neg hz, max_eq_right (by omega)]

theorem fromHexChar_of_digit (c : Nat) (h : isHexDigit c) : ∃ v, fromHexChar c = some v := by
  unfold isHexDigit at h
  unfold fromHexChar
  split_ifs
  · exact ⟨_, rfl⟩
  · exact ⟨_, rfl⟩
  · exact ⟨_, rfl⟩
  · omega

theorem fromHexChar_of_not_digit (c : Nat) (h : ¬ isHexDigit c) : fromHexChar c = none := by
  unfold isHexDigit at h
  unfold fromHexChar
  split_ifs <;> first | rfl | (exfalso; apply h; omega)

theorem hexDecode_ok : ∀ (s : List Nat), (∀ c ∈ s, isHexDigit c) → s.length % 2 = 0 →
    ∃ bs, hexDecode s = .ok bs
  | [], _, _ => ⟨[], rfl⟩
  | [_], _, hl => by simp at hl
  | p :: q :: rest, hall, hl => by
    obtain ⟨a, ha⟩ := fromHexChar_of_digit p (hall p (by simp))
    obtain ⟨b, hb⟩ := fromHexChar_of_digit q (hall q (by simp))
    obtain ⟨bs, hbs⟩ := hexDecode_ok rest (fun c hc => hall c (by simp [hc]))
      (by simp only [List.length_cons] at hl; omega)
    exact ⟨(a * 16 + b) :: bs, by simp [hexDecode, ha, hb, hbs]⟩

theorem hexDecode_error : ∀ (s : List Nat), (∃ c ∈ s, ¬ isHexDigit c) →
    ∃ e, hexDecode s = .error e
  | [], h => by simp at h
  | [_], _ => ⟨_, rfl⟩
  | p :: q :: rest, h => by
    by_cases hp : isHexDigit p
    · by_cases hq : isHexDigit q
      · obtain ⟨a, ha⟩ := fromHexChar_of_digit p hp
        obtain ⟨b, hb⟩ := fromHexChar_of_digit q hq
        obtain ⟨e, he⟩ := hexDecode_error rest (by
          obtain ⟨c, hc, hnc⟩ := h
          simp only [List.mem_cons] at hc
          rcases hc with rfl | rfl | hc
          · exact absurd hp hnc
          · exact absurd hq hnc
          · exact ⟨c, hc, hnc⟩)
        exact ⟨e, by simp [hexDecode, ha, hb, he]⟩
      · obtain ⟨a, ha⟩ := fromHexChar_of_digit p hp
        exact ⟨"encoding/hex: invalid byte",
          by simp [hexDecode, ha, fromHexChar_of_not_digit q hq]⟩
    · exact ⟨"encoding/hex: invalid byte", by simp [hexDecode, fromHexChar_of_not_digit p hp]⟩

theorem ObjectIDFromHex_valid (s : GoString) (h : validHex24 s) :
    ∃ oid, ObjectIDFromHex s = .ok oid := by
  obtain ⟨bs, hbs⟩ := hexDecode_ok s h.2 (by rw [h.1])
  exact ⟨bs, by simp [ObjectIDFromHex, h.1, hbs]⟩

theorem ObjectIDFromHex_invalid (s : GoString) (h : ¬ validHex24 s) :
    ∃ e, ObjectIDFromHex s = .error e := by
  by_cases hl : s.length = 24
  · have hex : ∃ c ∈ s, ¬ isHexDigit c := by
      by_contra hcon
      push_neg at hcon
      exact h ⟨hl, hcon⟩
    obtain ⟨e, he⟩ := hexDecode_error s hex
    exact ⟨e, by simp [ObjectIDFromHex, hl, he]⟩
  · exact ⟨"the provided hex string is not a valid ObjectID", by simp [ObjectIDFromHex, hl]⟩

end LoopLemmas

/-! ## Properties of the operations -/

section Claims

variable {R α : Type}

/-- C1. For every destination slice (any length, capacity and contents, the
nil slice included) and every stream of `M` documents that all decode, the
loop stops with write index `M`, and `Aggregate`, `FindMany` and `FindPage`
leave the destination with length exactly `M`, its element number `j` being
the decoding of document number `j` into slot `j` of the backing array (into
a fresh zero value where the array has no slot `j`). -/
theorem materialization_complete (dec : Decoder R α) (zero : α) (extra : Nat → Nat)
    (col : Collection R) (s : Slice α) (docs : List R) (ce : Option Err)
    (pipe : List BsonD) (filter sorts : BsonD) (page limit cnt : Int)
    (hdec : ∀ j (hj : j < docs.length), (dec (docs.get ⟨j, hj⟩) (s.arr.getD j zero)).2 = none)
    (hagg : col.Aggregate pipe = .ok ⟨docs, ce⟩)
    (hfind : col.Find filter (findOptions sorts) = .ok ⟨docs, ce⟩)
    (hcnt : col.CountDocuments filter = .ok cnt) (hlimit : toInt64 limit ≠ 0)
    (hpage : col.Find filter (pageOptions sorts page limit) = .ok ⟨docs, ce⟩) :
    (∃ it slicev, loop dec zero extra (NewIter (some ⟨docs, ce⟩) none) ⟨s.arr, s.Cap⟩ 0
        = .ret (it, slicev, docs.length)) ∧
    ∀ dest : Arg α,
      dest = (Aggregate dec zero extra col pipe (.slicePtr s)).dest ∨
      dest = (FindMany dec zero extra col (.slicePtr s) filter sorts).dest ∨
      dest = (FindPage dec zero extra col (.slicePtr s) filter page limit sorts).dest →
      ∃ final : Slice α, dest = .slicePtr final ∧ final.Len = docs.length ∧
        final.toList.length = docs.length ∧
        ∀ j (hj : j < docs.length),
          final.toList[j]? = some (dec (docs.get ⟨j, hj⟩) (s.arr.getD j zero)).1 := by
  constructor
  · obtain ⟨it, a, hloop, -⟩ := loop_spec dec zero extra ce none [] docs s.arr 0
      (Nat.zero_le _) (fun j hj => by simpa using hdec j hj) (fun b rest hb => by cases hb)
    simp only [List.append_nil, Nat.zero_add] at hloop
    exact ⟨it, _, hloop⟩
  · obtain ⟨it, a, hm, hle, -, htake⟩ := materialize_spec dec zero extra ce none docs [] s hdec
      (fun b rest hb => by cases hb)
    rw [List.append_nil] at hm
    obtain ⟨tp, htp⟩ := totalPages_ret cnt (toInt64 limit) hlimit
    have e1 := Aggregate_ok dec zero extra col pipe _ _ _ it hagg hm
    have e2 := FindMany_ok dec zero extra col filter sorts _ _ _ it hfind hm
    have e3 := FindPage_ok dec zero extra col filter sorts page limit cnt tp _ _ _ it hcnt htp
      hpage hm
    intro dest hdest
    have hd : dest = .slicePtr ⟨a, docs.length⟩ := by
      rcases hdest with h | h | h
      · rw [h, e1]
      · rw [h, e2]
      · rw [h, e3]
    refine ⟨⟨a, docs.length⟩, hd, rfl, ?_, ?_⟩
    · simp [Slice.toList, hle]
    · intro j hj
      simp only [Slice.toList]
      rw [htake, decodeAll_getElem? dec zero s.arr docs 0 j hj]
      simp

theorem materialization_complete_witness :
    ∃ final : Slice Nat,
      (FindMany sampleDec 0 (fun _ => 2) (sampleCol [1, 2, 3] none 3)
        (.slicePtr ⟨[10], 0⟩) [] []).dest = .slicePtr final ∧ final.Len = 3 ∧
      final.toList.length = 3 ∧
      ∀ j (hj : j < [1, 2, 3].length),
        final.toList[j]? = some (sampleDec ([1, 2, 3].get ⟨j, hj⟩) ([10].getD j 0)).1 := by
  have h := (materialization_complete sampleDec 0 (fun _ => 2) (sampleCol [1, 2, 3] none 3)
    ⟨[10], 0⟩ [1, 2, 3] none [] [] [] 1 10 3 (by decide) rfl rfl rfl (by decide) rfl).2
  exact h _ (Or.inr (Or.inl rfl))

/-- C2. When the first `k` documents decode and document number `k + 1`
fails to decode, the loop stops with write index `k`; for each of `Aggregate`,
`FindMany` and `FindPage` the value returned equals the one obtained from the
stream that ends after those `k` documents, and the two destinations have the
same elements, length and capacity: exactly the `k` decoded elements. -/
theorem decode_failure_collapse (dec : Decoder R α) (zero : α) (extra : Nat → Nat)
    (col1 col2 : Collection R) (s : Slice α) (good : List R) (bad : R) (rest : List R)
    (ce : Option Err) (pipe : List BsonD) (filter sorts : BsonD) (page limit cnt : Int)
    (hgood : ∀ j (hj : j < good.length), (dec (good.get ⟨j, hj⟩) (s.arr.getD j zero)).2 = none)
    (hbad : (dec bad (s.arr.getD good.length zero)).2 ≠ none)
    (hagg1 : col1.Aggregate pipe = .ok ⟨good ++ bad :: rest, ce⟩)
    (hagg2 : col2.Aggregate pipe = .ok ⟨good, ce⟩)
    (hfind1 : col1.Find filter (findOptions sorts) = .ok ⟨good ++ bad :: rest, ce⟩)
    (hfind2 : col2.Find filter (findOptions sorts) = .ok ⟨good, ce⟩)
    (hcnt1 : col1.CountDocuments filter = .ok cnt)
    (hcnt2 : col2.CountDocuments filter = .ok cnt) (hlimit : toInt64 limit ≠ 0)
    (hpage1 : col1.Find filter (pageOptions sorts page limit) = .ok ⟨good ++ bad :: rest, ce⟩)
    (hpage2 : col2.Find filter (pageOptions sorts page limit) = .ok ⟨good, ce⟩) :
    (∃ it slicev, loop dec zero extra (NewIter (some ⟨good ++ bad :: rest, ce⟩) none)
        ⟨s.arr, s.Cap⟩ 0 = .ret (it, slicev, good.length)) ∧
    (Aggregate dec zero extra col1 pipe (.slicePtr s)).out
      = (Aggregate dec zero extra col2 pipe (.slicePtr s)).out ∧
    (FindMany dec zero extra col1 (.slicePtr s) filter sorts).out
      = (FindMany dec zero extra col2 (.slicePtr s) filter sorts).out ∧
    (FindPage dec zero extra col1 (.slicePtr s) filter page limit sorts).out
      = (FindPage dec zero extra col2 (.slicePtr s) filter page limit sorts).out ∧
    ∀ d1 d2 : Arg α,
      (d1 = (Aggregate dec zero extra col1 pipe (.slicePtr s)).dest ∧
        d2 = (Aggregate dec zero extra col2 pipe (.slicePtr s)).dest) ∨
      (d1 = (FindMany dec zero extra col1 (.slicePtr s) filter sorts).dest ∧
        d2 = (FindMany dec zero extra col2 (.slicePtr s) filter sorts).dest) ∨
      (d1 = (FindPage dec zero extra col1 (.slicePtr s) filter page limit sorts).dest ∧
        d2 = (FindPage dec zero extra col2 (.slicePtr s) filter page limit sorts).dest) →
      ∃ f1 f2 : Slice α, d1 = .slicePtr f1 ∧ d2 = .slicePtr f2 ∧
        f1.Len = good.length ∧ f2.Len = good.length ∧ f1.Cap = f2.Cap ∧
        f1.toList = f2.toList ∧ f1.toList.length = good.length ∧
        ∀ j (hj : j < good.length),
          f1.toList[j]? = some (dec (good.get ⟨j, hj⟩) (s.arr.getD j zero)).1 := by
  have hstop : ∀ b r, bad :: rest = b :: r → (dec b (s.arr.getD good.length zero)).2 ≠ none := by
    intro b r hb
    cases hb
    exact hbad
  refine ⟨?_, ?_⟩
  · obtain ⟨it, a, hloop, -⟩ := loop_spec dec zero extra ce none (bad :: rest) good s.arr 0
      (Nat.zero_le _) (fun j hj => by simpa using hgood j hj) (fun b r hb => by
        simpa using hstop b r hb)
    simp only [Nat.zero_add] at hloop
    exact ⟨it, _, hloop⟩
  · obtain ⟨it1, a1, hm1, hle1, hcap1, htake1⟩ :=
      materialize_spec dec zero extra ce none good (bad :: rest) s hgood hstop
    obtain ⟨it2, a2, hm2, hle2, hcap2, htake2⟩ :=
      materialize_spec dec zero extra ce none good [] s hgood (fun b r hb => by cases hb)
    rw [List.append_nil] at hm2
    obtain ⟨tp, htp⟩ := totalPages_ret cnt (toInt64 limit) hlimit
    have a1e := Aggregate_ok dec zero extra col1 pipe _ _ _ it1 hagg1 hm1
    have a2e := Aggregate_ok dec zero extra col2 pipe _ _ _ it2 hagg2 hm2
    have m1e := FindMany_ok dec zero extra col1 filter sorts _ _ _ it1 hfind1 hm1
    have m2e := FindMany_ok dec zero extra col2 filter sorts _ _ _ it2 hfind2 hm2
    have p1e := FindPage_ok dec zero extra col1 filter sorts page limit cnt tp _ _ _ it1 hcnt1
      htp hpage1 hm1
    have p2e := FindPage_ok dec zero extra col2 filter sorts page limit cnt tp _ _ _ it2 hcnt2
      htp hpage2 hm2
    refine ⟨by rw [a1e, a2e], by rw [m1e, m2e], by rw [p1e, p2e], ?_⟩
    intro d1 d2 hd
    have hd1 : d1 = .slicePtr ⟨a1, good.length⟩ := by
      rcases hd with h | h | h
      · rw [h.1, a1e]
      · rw [h.1, m1e]
      · rw [h.1, p1e]
    have hd2 : d2 = .slicePtr ⟨a2, good.length⟩ := by
      rcases hd with h | h | h
      · rw [h.2, a2e]
      · rw [h.2, m2e]
      · rw [h.2, p2e]
    refine ⟨_, _, hd1, hd2, rfl, rfl, ?_, ?_, ?_, ?_⟩
    · simp only [Slice.Cap]
      rw [hcap1, hcap2]
    · simp only [Slice.toList]
      rw [htake1, htake2]
    · simp [Slice.toList, hle1]
    · intro j hj
      simp only [Slice.toList]
      rw [htake1, decodeAll_getElem? dec zero s.arr good 0 j hj]
      simp

theorem decode_failure_collapse_witness :
    (FindMany sampleDec 0 (fun _ => 2) (sampleCol [1, 2, 0, 4] none 4)
        (.slicePtr ⟨[10, 20, 30], 1⟩) [] []).out
      = (FindMany sampleDec 0 (fun _ => 2) (sampleCol [1, 2] none 4)
        (.slicePtr ⟨[10, 20, 30], 1⟩) [] []).out :=
  (decode_failure_collapse sampleDec 0 (fun _ => 2) (sampleCol [1, 2, 0, 4] none 4)
    (sampleCol [1, 2] none 4) ⟨[10, 20, 30], 1⟩ [1, 2] 0 [4] none [] [] [] 1 10 4
    (by decide) (by decide) rfl rfl rfl rfl rfl rfl (by decide) rfl rfl).2.2.1

/-- C3. At a stream of two documents that decode, with a cursor whose `Close`
fails: `Aggregate` and `FindMany` return the close error, `FindPage` returns
a nil error; each leaves a destination of length two. -/
theorem close_error_dropped_by_FindPage :
    (Aggregate sampleDec 0 (fun _ => 2) (sampleCol [1, 2] (some "close failed") 2) []
        (.slicePtr Slice.nil)).out = .ret (some "close failed") ∧
    (FindMany sampleDec 0 (fun _ => 2) (sampleCol [1, 2] (some "close failed") 2)
        (.slicePtr Slice.nil) [] []).out = .ret (some "close failed") ∧
    (FindPage sampleDec 0 (fun _ => 2) (sampleCol [1, 2] (some "close failed") 2)
        (.slicePtr Slice.nil) [] 1 10 []) =
      ⟨.ret (1, none), .slicePtr ⟨[1, 2, 0], 2⟩,
        [.CountDocuments [], .Find [] { skip := some 0, limit := some 10 }]⟩ := by
  refine ⟨?_, ?_, ?_⟩
  · simp [Aggregate, sampleCol, materialize, NewIter, Arg.Kind, Arg.ElemKind, Slice.Slice0,
      Slice.Cap, Outcome.bind, loop, Iter.Next, sampleDec, Slice.Len, Slice.Index,
      Slice.setIndex, Slice.Append, Slice.nil, Cursor.Close]
  · simp [FindMany, sampleCol, materialize, NewIter, Arg.Kind, Arg.ElemKind, Slice.Slice0,
      Slice.Cap, Outcome.bind, loop, Iter.Next, sampleDec, Slice.Len, Slice.Index,
      Slice.setIndex, Slice.Append, Slice.nil, Cursor.Close]
  · have h0 : toInt64 0 = 0 := by decide
    have h1 : toInt64 1 = 1 := by decide
    have h10 : toInt64 10 = 10 := by decide
    have ht : totalPages 2 10 = .ret 1 := by decide
    simp [FindPage, Count, h0, h1, h10, ht, findOptions, sampleCol, materialize, NewIter,
      Arg.Kind, Arg.ElemKind, Slice.Slice0,
      Slice.Cap, Outcome.bind, loop, Iter.Next, sampleDec, Slice.Len, Slice.Index,
      Slice.setIndex, Slice.Append, Slice.nil, Cursor.Close]

/-- C4. An identifier that is neither a string nor an `ObjectID`: `DeleteID`
returns an error and makes no call; `Update` returns a nil error and makes
no call; `FindID` queries with the zero `ObjectID` (a nil interface value
makes it return nil instead). -/
theorem unsupported_id_handling (col : Collection R) (typeName : String) (upd : BsonD) :
    DeleteID col (.other typeName) = ⟨some ("unsupported id type: " ++ typeName), []⟩ ∧
    DeleteID col .nil = ⟨some "unsupported id type: <nil>", []⟩ ∧
    Update col (.other typeName) upd = ⟨none, []⟩ ∧
    Update col .nil upd = ⟨none, []⟩ ∧
    FindID col (.other typeName)
      = ⟨some (col.FindOne (idFilter NilObjectID)), [.FindOne (idFilter NilObjectID)]⟩ ∧
    FindID col .nil = ⟨none, []⟩ :=
  ⟨rfl, rfl, rfl, rfl, rfl, rfl⟩

/-- C6. The pair a failed query hands to `NewIter` is a nil cursor and a
non-nil error. On the `Iter` built from it `Next` does not return false: it
never reads the stored error, calls the method of the nil cursor and panics. -/
theorem Next_after_failed_query_panics (dec : Decoder R α) (err : Err) (T : α) :
    Iter.Next dec (NewIter none (some err)) T = .panic .nilDereference ∧
    Iter.Next sampleDec (NewIter none (some "query failed")) 0 = .panic .nilDereference :=
  ⟨rfl, rfl⟩

/-- C7. With a find query that succeeds and a result argument that is not a
pointer to a slice, `FindMany` panics: it does not return an error. -/
theorem FindMany_panics_on_bad_result_argument :
    (FindMany sampleDec 0 (fun _ => 2) (sampleCol [1] none 1) .notPtr [] []).out
      = .panic .resultArgument ∧
    (FindMany sampleDec 0 (fun _ => 2) (sampleCol [1] none 1) .otherPtr [] []).out
      = .panic .resultArgument := by
  constructor <;>
    simp [FindMany, sampleCol, materialize, NewIter, Arg.Kind, Arg.ElemKind]

/-- C10. When the count query succeeds, `FindPage` ends in a division fault
exactly when `limit` is zero; with `limit = 0` the fault comes after the
count query alone, with the result argument as it was. -/
theorem FindPage_division_fault (dec : Decoder R α) (zero : α) (extra : Nat → Nat)
    (col : Collection R) (T : Arg α) (filter sorts : BsonD) (page limit cnt : Int)
    (hlo : -2 ^ 63 ≤ limit) (hhi : limit < 2 ^ 63)
    (hcnt : col.CountDocuments filter = .ok cnt) :
    ((FindPage dec zero extra col T filter page limit sorts).out ≠ .panic .divideByZero
      ↔ limit ≠ 0) ∧
    (limit = 0 → FindPage dec zero extra col T filter page limit sorts
      = ⟨.panic .divideByZero, T, [.CountDocuments filter]⟩) := by
  have hl := toInt64_of_range limit hlo hhi
  have hzero : limit = 0 → FindPage dec zero extra col T filter page limit sorts
      = ⟨.panic .divideByZero, T, [.CountDocuments filter]⟩ := by
    intro h0
    subst h0
    have h00 : toInt64 0 = 0 := by decide
    simp [FindPage, Count, hcnt, totalPages, h00]
  refine ⟨⟨?_, ?_⟩, hzero⟩
  · intro h h0
    rw [hzero h0] at h
    exact h rfl
  · intro h
    exact (FindPage_calls dec zero extra col filter sorts page limit cnt T hcnt
      (by rw [hl]; exact h)).2

theorem FindPage_division_fault_witness :
    FindPage sampleDec 0 (fun _ => 2) (sampleCol [1] none 1) (.slicePtr ⟨[7], 1⟩) [] 1 0 []
      = ⟨.panic .divideByZero, .slicePtr ⟨[7], 1⟩, [.CountDocuments []]⟩ :=
  (FindPage_division_fault sampleDec 0 (fun _ => 2) (sampleCol [1] none 1) (.slicePtr ⟨[7], 1⟩)
    [] [] 1 0 1 (by decide) (by decide) rfl).2 rfl

/-- C5. For a matching count `c ≥ 0` and a page size `s > 0` the total page
count of `FindPage` is `max 1 ⌈c / s⌉`: so is the value computed, and so is
the value `FindPage` returns; in particular it is 1, 1, 2 and 10 for the
counts 0, 10, 11 and 100 with page size 10. -/
theorem totalPages_formula (dec : Decoder R α) (zero : α) (extra : Nat → Nat)
    (col : Collection R) (sl : Slice α) (filter sorts : BsonD) (page c s : Int) (cur : Cursor R)
    (hc : 0 ≤ c) (hc1 : c < 2 ^ 63) (hs : 0 < s) (hs1 : s < 2 ^ 63)
    (hcnt : col.CountDocuments filter = .ok c)
    (hq : col.Find filter (pageOptions sorts page s) = .ok cur) :
    totalPages c s = .ret (max 1 ⌈(c : ℚ) / (s : ℚ)⌉) ∧
    (FindPage dec zero extra col (.slicePtr sl) filter page s sorts).out
      = .ret (max 1 ⌈(c : ℚ) / (s : ℚ)⌉, none) ∧
    totalPages 0 10 = .ret 1 ∧ totalPages 10 10 = .ret 1 ∧
    totalPages 11 10 = .ret 2 ∧ totalPages 100 10 = .ret 10 := by
  have ht := totalPages_eq c s hc hc1 hs
  refine ⟨ht, ?_, by decide, by decide, by decide, by decide⟩
  obtain ⟨it, final, hm⟩ := materialize_total dec zero extra cur none sl
  have hl : toInt64 s = s := toInt64_of_range s (by omega) hs1
  rw [FindPage_ok dec zero extra col filter sorts page s c _ _ _ cur it hcnt (by rw [hl]; exact ht)
    hq hm]

theorem totalPages_formula_witness :
    (FindPage sampleDec 0 (fun _ => 2) (sampleCol [1, 2] none 11) (.slicePtr Slice.nil) [] 1 10
      []).out = .ret (max 1 ⌈((11 : Int) : ℚ) / ((10 : Int) : ℚ)⌉, none) :=
  (totalPages_formula sampleDec 0 (fun _ => 2) (sampleCol [1, 2] none 11) Slice.nil [] [] 1 11 10
    ⟨[1, 2], none⟩ (by decide) (by decide) (by decide) (by decide) rfl rfl).2.1

/-- C9, as stated, fails: with page number `2^62 + 1` and page size 4 the
product `(max p 1 - 1) * s` is `2^64`, and the skip offset of the find query
is 0. -/
theorem page_offset_wraps :
    (FindPage sampleDec 0 (fun _ => 2) (sampleCol [] none 0) (.slicePtr Slice.nil) []
        (2 ^ 62 + 1) 4 []).calls
      = [.CountDocuments [], .Find [] { skip := some 0, limit := some 4 }] ∧
    (max (2 ^ 62 + 1 : Int) 1 - 1) * 4 ≠ 0 := by
  refine ⟨?_, by decide⟩
  rw [(FindPage_calls sampleDec 0 (fun _ => 2) (sampleCol [] none 0) [] [] (2 ^ 62 + 1) 4 0
    (.slicePtr Slice.nil) rfl (by decide)).1]
  decide

/-- C9, amended. For a page number `p` and a page size `s > 0` whose product
`(max p 1 - 1) * s` is below `2^63`, the find query of `FindPage` carries the
skip offset `(max p 1 - 1) * s`, which is 0 for every `p ≤ 0`, and the limit
`s`; no upper clamp is applied to `p`. -/
theorem skip_offset (dec : Decoder R α) (zero : α) (extra : Nat → Nat)
    (col : Collection R) (T : Arg α) (filter sorts : BsonD) (p s cnt : Int)
    (hp : -2 ^ 63 ≤ p) (hp1 : p < 2 ^ 63) (hs : 0 < s) (hs1 : s < 2 ^ 63)
    (hfit : (max p 1 - 1) * s < 2 ^ 63)
    (hcnt : col.CountDocuments filter = .ok cnt) :
    ∃ opts : FindOptions,
      (FindPage dec zero extra col T filter p s sorts).calls
        = [.CountDocuments filter, .Find filter opts] ∧
      opts.skip = some ((max p 1 - 1) * s) ∧
      opts.limit = some s ∧
      (p ≤ 0 → opts.skip = some 0) := by
  have hl : toInt64 s = s := toInt64_of_range s (by omega) hs1
  have hpp : toInt64 p = p := toInt64_of_range p hp hp1
  have hnorm : (if p ≤ 0 then (1 : Int) else p) = max p 1 := by
    split_ifs with h
    · rw [max_eq_right (by omega)]
    · rw [max_eq_left (by omega)]
  have hnn : 0 ≤ (max p 1 - 1) * s :=
    Int.mul_nonneg (by have := le_max_right p 1; omega) (le_of_lt hs)
  have hskip : (pageOptions sorts p s).skip = some ((max p 1 - 1) * s) := by
    simp only [pageOptions, hl, hpp, hnorm]
    rw [toInt64_of_range _ (by omega) hfit]
  refine ⟨pageOptions sorts p s,
    (FindPage_calls dec zero extra col filter sorts p s cnt T hcnt (by rw [hl]; omega)).1,
    hskip, by simp [pageOptions, hl], ?_⟩
  intro hp0
  rw [hskip, max_eq_right (by omega)]
  simp

theorem skip_offset_witness :
    ∃ opts : FindOptions,
      (FindPage sampleDec 0 (fun _ => 2) (sampleCol [1] none 30) (.slicePtr Slice.nil) [] 3 10
        []).calls = [.CountDocuments [], .Find [] opts] ∧
      opts.skip = some ((max 3 1 - 1) * 10) ∧ opts.limit = some 10 ∧
      ((3 : Int) ≤ 0 → opts.skip = some 0) :=
  skip_offset sampleDec 0 (fun _ => 2) (sampleCol [1] none 30) (.slicePtr Slice.nil) [] [] 3 10 30
    (by decide) (by decide) (by decide) (by decide) (by decide) rfl

/-- C8. Identifier normalization never fails: for a valid 24-character hex
string `ObjID` is the identifier that `ObjectIDFromHex` parses, for any other
string it is `NilObjectID`; `DeleteID`, `Update` and `FindID` put `ObjID s`
in their `_id` filter for a string `s` and a native identifier unchanged. -/
theorem ObjID_normalization (col : Collection R) (s : GoString) (o : ObjectID) (upd : BsonD) :
    (validHex24 s → ObjectIDFromHex s = .ok (ObjID s)) ∧
    (¬ validHex24 s → ObjID s = NilObjectID) ∧
    (DeleteID col (.str s)).calls = [.DeleteOne (idFilter (ObjID s))] ∧
    (Update col (.str s) upd).calls = [.UpdateOne (idFilter (ObjID s)) upd] ∧
    (FindID col (.str s)).calls = [.FindOne (idFilter (ObjID s))] ∧
    (DeleteID col (.oid o)).calls = [.DeleteOne (idFilter o)] ∧
    (Update col (.oid o) upd).calls = [.UpdateOne (idFilter o) upd] ∧
    (FindID col (.oid o)).calls = [.FindOne (idFilter o)] := by
  refine ⟨?_, ?_, rfl, rfl, rfl, rfl, rfl, rfl⟩
  · intro h
    obtain ⟨oid, hoid⟩ := ObjectIDFromHex_valid s h
    simp [ObjID, hoid]
  · intro h
    obtain ⟨e, he⟩ := ObjectIDFromHex_invalid s h
    simp [ObjID, he]

theorem ObjID_normalization_witness :
    ObjectIDFromHex sampleHex = .ok (ObjID sampleHex) ∧
    ObjID sampleHex = [95, 27, 44, 61, 78, 95, 106, 123, 140, 157, 14, 31] :=
  ⟨(ObjID_normalization (sampleCol [] none 0) sampleHex [] []).1 (by decide), by decide⟩

end Claims


end Oddish
